import Mathlib

/-!
Verification of the region-ordered, duplicate-free record fetch iterator of
parascopy (src/src/parascopy/inner/common.py) against its design document.

The definitions below are a shallow embedding of the Python source.
Collaborators that live in genome.py (Genome, NamedInterval) are not part of
src/ and are modelled from the specification, as marked in their doc comments.
The iterator itself (`_fetch_regions_wo_duplicates`, `get_regions`,
`fetch_iterator`) is translated directly from common.py.
-/

/-- Modelled from the spec: the Genome collaborator lives in genome.py, which is
not under src/.  Spec section 6: name to id lookup, id to name and length
lookup, chromosomes enumerable in a stable order. -/
structure Genome where
  chrom_names : List String
  chrom_lengths : List Int
deriving DecidableEq

/-- Modelled from the spec: genome.chrom_id fails (UnknownChromosomeError) for
an absent name; the failure is the none case here. -/
def Genome.chrom_id (g : Genome) (name : String) : Option Nat :=
  g.chrom_names.findIdx? (fun n => n == name)

/-- Modelled from the spec: chromosome id to name lookup. -/
def Genome.chrom_name (g : Genome) (i : Nat) : String :=
  g.chrom_names.getD i ""

/-- Modelled from the spec: chromosome id to length lookup. -/
def Genome.chrom_len (g : Genome) (i : Nat) : Int :=
  g.chrom_lengths.getD i 0

/-- Modelled from the spec: NamedInterval (genome.py, not under src/), a half
open genomic range with an optional name.  The field end_ embeds the Python
attribute end. -/
structure NamedInterval where
  chrom_id : Nat
  start : Int
  end_ : Int
  name : Option String := none
deriving DecidableEq

def NamedInterval.chrom_name (r : NamedInterval) (g : Genome) : String :=
  Genome.chrom_name g r.chrom_id

/-- Modelled from the spec: Trim clamps start to at least 0 and end to at most
the chromosome length (spec 4.1).  The Python method mutates the interval in
place; it is embedded functionally. -/
def NamedInterval.trim (r : NamedInterval) (g : Genome) : NamedInterval :=
  { r with start := max 0 r.start, end_ := min r.end_ (Genome.chrom_len g r.chrom_id) }

/-- Modelled from the spec: the interval order is lexicographic on
(chrom_id, start, end), spec 4.1 CompareTo; the comparison lives in genome.py,
which is not under src/. -/
def NamedInterval.le (a b : NamedInterval) : Prop :=
  a.chrom_id < b.chrom_id ∨
    (a.chrom_id = b.chrom_id ∧ (a.start < b.start ∨ (a.start = b.start ∧ a.end_ ≤ b.end_)))

instance : DecidableRel NamedInterval.le := fun a b => by
  unfold NamedInterval.le; infer_instance

instance : IsTotal NamedInterval NamedInterval.le :=
  ⟨fun a b => by unfold NamedInterval.le; omega⟩

instance : IsTrans NamedInterval NamedInterval.le :=
  ⟨fun a b c => by unfold NamedInterval.le; omega⟩

/-- Two intervals that cannot contribute the same record twice: different
chromosomes or disjoint half open coordinate ranges. -/
def NamedInterval.disjoint (a b : NamedInterval) : Prop :=
  a.chrom_id ≠ b.chrom_id ∨ a.end_ ≤ b.start ∨ b.end_ ≤ a.start

instance : DecidableRel NamedInterval.disjoint := fun a b => by
  unfold NamedInterval.disjoint; infer_instance

/-- The prev_start value after one region of _fetch_regions_wo_duplicates:
common.py lines 203 to 205 keep the maximum of the current value and the start
of the last fetched entry, and leave the value alone when the fetch returned
nothing. -/
def updPrev {α : Type} (gs : α → Int) (ps : Int) (entries : List α) : Int :=
  match entries.getLast? with
  | none => ps
  | some e => max ps (gs e)

/-- One loop iteration of _fetch_regions_wo_duplicates (common.py lines 189 to
206): the entries yielded for one region together with the next
(prev_chrom_id, prev_start) state.  The parameter gs is the start accessor
selected by start_attr in the Python code: entry.start when start_attr is
true, int(entry[1]) otherwise. -/
def dedupStep {α : Type} (fetch : String → Int → Int → List α) (gs : α → Int) (g : Genome)
    (st : Option Nat × Int) (r : NamedInterval) : List α × (Option Nat × Int) :=
  let ps : Int := if st.1 = some r.chrom_id then st.2 else -1
  let entries := fetch (r.chrom_name g) r.start r.end_
  let yields :=
    if st.1 = some r.chrom_id then entries.filter (fun e => decide (ps < gs e)) else entries
  (yields, (some r.chrom_id, updPrev gs ps entries))

/-- The region loop of _fetch_regions_wo_duplicates, with the mutable cursor
(prev_chrom_id, prev_start) made an explicit state argument. -/
def fetchRegionsAux {α : Type} (fetch : String → Int → Int → List α) (gs : α → Int) (g : Genome) :
    Option Nat × Int → List NamedInterval → List α
  | _, [] => []
  | st, r :: rest =>
    (dedupStep fetch gs g st r).1 ++ fetchRegionsAux fetch gs g (dedupStep fetch gs g st r).2 rest

/-- Embedding of _fetch_regions_wo_duplicates (common.py lines 186 to 206);
the generator is embedded as the list of all yielded entries, with initial
state prev_chrom_id = None and prev_start = -1. -/
def fetch_regions_wo_duplicates {α : Type} (fetch : String → Int → Int → List α) (gs : α → Int)
    (g : Genome) (regions : List NamedInterval) : List α :=
  fetchRegionsAux fetch gs g (none, -1) regions

/-- The same loop with every yielded entry tagged by the chromosome id of the
region that produced it; used to state per chromosome properties of the
output.  Dropping the tags gives back fetchRegionsAux. -/
def fetchRegionsAuxTagged {α : Type} (fetch : String → Int → Int → List α) (gs : α → Int)
    (g : Genome) : Option Nat × Int → List NamedInterval → List (Nat × α)
  | _, [] => []
  | st, r :: rest =>
    (dedupStep fetch gs g st r).1.map (fun e => (r.chrom_id, e))
      ++ fetchRegionsAuxTagged fetch gs g (dedupStep fetch gs g st r).2 rest

/-- Start positions of the tagged output restricted to one chromosome. -/
def chromStarts {α : Type} (gs : α → Int) (c : Nat) (l : List (Nat × α)) : List Int :=
  (l.filter (fun p => p.1 == c)).map (fun p => gs p.2)

/-- Lift an optional value into the error monad, mirroring a Python call that
raises when the value is absent. -/
def exceptOfOption {β : Type} (o : Option β) (msg : String) : Except String β :=
  match o with
  | some b => Except.ok b
  | none => Except.error msg

/-- Lift an optional list element into the error monad, mirroring a Python
indexing expression that raises IndexError past the end. -/
def exceptIdx {β : Type} (l : List β) (i : Nat) : Except String β :=
  exceptOfOption l[i]? "IndexError"

/-- Python str.split on a single separator character: n separators give
n + 1 parts, with empty parts kept (so the empty string gives one empty
part). -/
def pySplit (sep : Char) : List Char → List (List Char)
  | [] => [[]]
  | c :: rest =>
    match pySplit sep rest with
    | [] => [[]]
    | part :: parts =>
      if c = sep then [] :: part :: parts
      else (c :: part) :: parts

def isSpaceChar (c : Char) : Bool :=
  c = ' ' ∨ c = '\t' ∨ c = '\n' ∨ c = '\r'

/-- Python str.strip: remove leading and trailing whitespace. -/
def pyStrip (cs : List Char) : List Char :=
  ((cs.dropWhile isSpaceChar).reverse.dropWhile isSpaceChar).reverse

def digitVal (c : Char) : Option Nat :=
  if '0' ≤ c ∧ c ≤ '9' then some (c.toNat - '0'.toNat) else none

def parseNatAux : List Char → Nat → Option Nat
  | [], acc => some acc
  | c :: rest, acc =>
    match digitVal c with
    | some d => parseNatAux rest (acc * 10 + d)
    | none => none

/-- Modelled from the spec: Python int() on a text field (spec 4.1: start or
end that is not an integer is a ParseError): an optional minus sign followed
by at least one decimal digit. -/
def pyIntChars : List Char → Option Int
  | [] => none
  | '-' :: rest =>
    match rest with
    | [] => none
    | _ => (parseNatAux rest 0).map (fun n => -(n : Int))
  | cs => (parseNatAux cs 0).map (fun n => (n : Int))

def pyInt (s : String) : Except String Int :=
  exceptOfOption (pyIntChars s.data) "invalid literal for int"

/-- Python line.startswith of a one character prefix. -/
def startsWithHash (line : String) : Bool :=
  match line.data with
  | c :: _ => c = '#'
  | [] => false

/-- Modelled from the spec: NamedInterval.parse lives in genome.py, which is
not under src/.  Spec 4.1 Parse: accepts chrom:start-end, fails when the
chromosome is unknown, the numbers are malformed, start > end or start < 0;
region strings are 1-based inclusive and are stored half open 0-based. -/
def NamedInterval.parse (g : Genome) (s : String) : Except String NamedInterval :=
  match pySplit ':' s.data with
  | [chrom, rng] =>
    match Genome.chrom_id g (String.mk chrom) with
    | none => Except.error "unknown chromosome"
    | some c =>
      match pySplit '-' rng with
      | [a, b] =>
        match pyIntChars a, pyIntChars b with
        | some sv, some ev =>
          if sv < 1 ∨ ev < sv then Except.error "invalid region"
          else Except.ok ⟨c, sv - 1, ev, none⟩
        | _, _ => Except.error "invalid region"
      | _ => Except.error "invalid region"
  | _ => Except.error "invalid region"

/-- One explicit region string of get_regions (common.py lines 152 to 160):
strings containing a colon are parsed as chrom:start-end, anything else is a
bare chromosome name standing for the whole chromosome; either way the result
is trimmed. -/
def regionFromString (g : Genome) (region : String) : Except String NamedInterval :=
  if region.data.contains ':' then do
    let iv ← NamedInterval.parse g region
    Except.ok (iv.trim g)
  else do
    let c ← exceptOfOption (Genome.chrom_id g region) "unknown chromosome"
    Except.ok ((NamedInterval.mk c 0 (Genome.chrom_len g c) none).trim g)

/-- The explicit-list branch of get_regions: parse each region string in
order, failing fast on the first bad one. -/
def regionsFromStrings (g : Genome) : List String → Except String (List NamedInterval)
  | [] => Except.ok []
  | region :: rest => do
    let iv ← regionFromString g region
    let ivs ← regionsFromStrings g rest
    Except.ok (iv :: ivs)

/-- One region file line of get_regions (common.py lines 164 to 175): strip,
split on tabs, look up the chromosome of field 0, parse fields 1 and 2 as
integers, keep field 3 as the optional name, and trim the interval.  Any
failure aborts with an error, as the corresponding Python calls raise. -/
def parseFileLine (g : Genome) (line : String) : Except String NamedInterval := do
  let fields := (pySplit '\t' (pyStrip line.data)).map String.mk
  let chrom_id ← exceptOfOption (Genome.chrom_id g (fields.getD 0 "")) "unknown chromosome"
  let f1 ← exceptIdx fields 1
  let f2 ← exceptIdx fields 2
  let start ← pyInt f1
  let end_ ← pyInt f2
  let name := fields[3]?
  Except.ok ((NamedInterval.mk chrom_id start end_ name).trim g)

/-- The region-file branch of get_regions (common.py lines 162 to 175),
with the file given by its lines: lines starting with a hash are skipped,
every other line is parsed, failing fast on the first bad one. -/
def intervalsFromFileLines (g : Genome) : List String → Except String (List NamedInterval)
  | [] => Except.ok []
  | line :: rest =>
    if startsWithHash line then intervalsFromFileLines g rest
    else do
      let iv ← parseFileLine g line
      let ivs ← intervalsFromFileLines g rest
      Except.ok (iv :: ivs)

/-- The no-selection branch of get_regions (common.py lines 177 to 179): one
full chromosome interval per chromosome, in genome enumeration order, named
after the chromosome. -/
def fullChromIntervals (g : Genome) : List NamedInterval :=
  g.chrom_lengths.enum.map (fun p => ⟨p.1, 0, p.2, some (Genome.chrom_name g p.1)⟩)

/-- The argparse-style argument object consumed by get_regions and
fetch_iterator: an explicit region string list (absent is embedded as the
empty list, matching Python falsiness) and an optional region file, embedded
by its list of lines (none when no file was supplied). -/
structure Args where
  regions : List String
  regions_file : Option (List String)
deriving DecidableEq

/-- The interval collection step of get_regions (common.py lines 150 to 179):
the explicit region list when it is non empty, otherwise the region file when
one was supplied, otherwise one interval per chromosome. -/
def collectIntervals (args : Args) (g : Genome) : Except String (List NamedInterval) :=
  if args.regions = [] then
    match args.regions_file with
    | some lines => intervalsFromFileLines g lines
    | none => Except.ok (fullChromIntervals g)
  else regionsFromStrings g args.regions

/-- Embedding of get_regions (common.py lines 146 to 183): collect the
intervals from exactly one source, then sort them by (chrom_id, start, end)
when sort is true.  Python list.sort is stable; it is embedded by the stable
insertionSort. -/
def get_regions (args : Args) (g : Genome) (sort : Bool := true) :
    Except String (List NamedInterval) :=
  (collectIntervals args g).map
    (fun intervals => if sort then intervals.insertionSort NamedInterval.le else intervals)

/-- The indexed source consumed by fetch_iterator: a range query by
chromosome name and half open coordinates, and the no-argument fetch meaning
everything. -/
structure FetchSource (α : Type) where
  fetch : String → Int → Int → List α
  fetchAll : List α

/-- Embedding of fetch_iterator (common.py lines 209 to 224).  With neither
regions nor a region file the unrestricted fetch is returned directly;
otherwise the region set is built with sort=true and either concatenated
plainly (no_duplicates false, the itertools.chain branch) or deduplicated.
The accessor gs embeds the start_attr switch as in dedupStep. -/
def fetch_iterator {α : Type} (obj : FetchSource α) (gs : α → Int) (args : Args) (g : Genome)
    (no_duplicates : Bool := true) : Except String (List α) :=
  if args.regions = [] ∧ args.regions_file = none then Except.ok obj.fetchAll
  else
    (get_regions args g true).map (fun regions =>
      if no_duplicates then fetch_regions_wo_duplicates obj.fetch gs g regions
      else (regions.map (fun r => obj.fetch (r.chrom_name g) r.start r.end_)).flatten)

/-- Genome fixture with one chromosome, used for concrete scenarios. -/
def oneChromGenome : Genome :=
  ⟨["chr1"], [1000]⟩

/-- Source fixture for the overlap scenario of the design document, section 8:
the query for A = [0, 100) returns records starting at 10, 60, 90 and the
query for B = [50, 150) returns records starting at 60, 90, 120.  Records are
embedded as their start coordinates. -/
def overlapFetch : String → Int → Int → List Int :=
  fun _ s _ => if s = 0 then [10, 60, 90] else if s = 50 then [60, 90, 120] else []

def regionA : NamedInterval := ⟨0, 0, 100, none⟩

def regionB : NamedInterval := ⟨0, 50, 150, none⟩

/-- The cursor state left behind by a list of regions: the fold of the state
component of dedupStep, starting from a given state. -/
def stateAfter {α : Type} (fetch : String → Int → Int → List α) (gs : α → Int) (g : Genome)
    (st : Option Nat × Int) (rs : List NamedInterval) : Option Nat × Int :=
  rs.foldl (fun s r => (dedupStep fetch gs g s r).2) st

/-- Genome fixture with two chromosomes. -/
def twoChromGenome : Genome :=
  ⟨["chr1", "chr2"], [100, 100]⟩

/-- Source fixture whose records carry their chromosome name: every range
query returns one record at start 5 on the queried chromosome. -/
def chromTagFetch : String → Int → Int → List (String × Int) :=
  fun c _ _ => [(c, 5)]

def chr1Full : NamedInterval := ⟨0, 0, 100, none⟩

def chr2Full : NamedInterval := ⟨1, 0, 100, none⟩

/-- Source fixture for the empty-region scenario: empty queries return
nothing, the query at start 0 returns one record at 10, the query at start
200 one record at 300. -/
def emptyRegionFetch : String → Int → Int → List Int :=
  fun _ s e => if e ≤ s then [] else if s = 0 then [10] else if s = 200 then [300] else []

def regionEmpty : NamedInterval := ⟨0, 30, 30, none⟩

def regionTail : NamedInterval := ⟨0, 200, 300, none⟩

/-- Source fixture returning two records with equal starts in one call. -/
def dupFetch : String → Int → Int → List Int :=
  fun _ _ _ => [7, 7]

/-- Source fixture with a distinguished unrestricted fetch result. -/
def constSource : FetchSource Int :=
  ⟨fun _ _ _ => [1, 2], [5, 6, 7]⟩

def argsNone : Args := ⟨[], none⟩

def argsExplicit : Args := ⟨["chr1"], none⟩

/-- Args fixture: the same explicit list together with a region file of
garbage, to exhibit that the file is ignored. -/
def argsExplicitPlusFile : Args := ⟨["chr1"], some ["garbage line"]⟩

def argsFileBlank : Args := ⟨[], some [""]⟩

def argsFileGood : Args := ⟨[], some ["#comment", "chr1\t10\t20"]⟩

/-- C1: for overlapping regions A = [0,100) and B = [50,150) on one chromosome
with fetch results starting at [10, 60, 90] and [60, 90, 120], the combined
output of the deduplicating iterator is exactly the records at starts
[10, 60, 90, 120]: every record of B at a start at most the maximum start seen
in A is suppressed and nothing is yielded twice. -/
theorem dedup_overlap_concrete :
    fetch_regions_wo_duplicates overlapFetch (fun x => x) oneChromGenome [regionA, regionB]
      = [10, 60, 90, 120] := by
  decide

theorem fetchRegionsAux_cons {α : Type} (fetch : String → Int → Int → List α) (gs : α → Int)
    (g : Genome) (st : Option Nat × Int) (r : NamedInterval) (rest : List NamedInterval) :
    fetchRegionsAux fetch gs g st (r :: rest) =
      (dedupStep fetch gs g st r).1
        ++ fetchRegionsAux fetch gs g (dedupStep fetch gs g st r).2 rest := rfl

theorem fetchRegionsAuxTagged_cons {α : Type} (fetch : String → Int → Int → List α)
    (gs : α → Int) (g : Genome) (st : Option Nat × Int) (r : NamedInterval)
    (rest : List NamedInterval) :
    fetchRegionsAuxTagged fetch gs g st (r :: rest) =
      (dedupStep fetch gs g st r).1.map (fun e => (r.chrom_id, e))
        ++ fetchRegionsAuxTagged fetch gs g (dedupStep fetch gs g st r).2 rest := rfl

theorem dedupStep_same {α : Type} (fetch : String → Int → Int → List α) (gs : α → Int)
    (g : Genome) (st : Option Nat × Int) (r : NamedInterval) (h : st.1 = some r.chrom_id) :
    dedupStep fetch gs g st r =
      ((fetch (r.chrom_name g) r.start r.end_).filter (fun e => decide (st.2 < gs e)),
        (some r.chrom_id, updPrev gs st.2 (fetch (r.chrom_name g) r.start r.end_))) := by
  simp [dedupStep, h]

theorem dedupStep_diff {α : Type} (fetch : String → Int → Int → List α) (gs : α → Int)
    (g : Genome) (st : Option Nat × Int) (r : NamedInterval) (h : st.1 ≠ some r.chrom_id) :
    dedupStep fetch gs g st r =
      (fetch (r.chrom_name g) r.start r.end_,
        (some r.chrom_id, updPrev gs (-1) (fetch (r.chrom_name g) r.start r.end_))) := by
  simp [dedupStep, h]

theorem updPrev_le {α : Type} (gs : α → Int) (ps : Int) (entries : List α) :
    ps ≤ updPrev gs ps entries := by
  unfold updPrev
  cases entries.getLast? with
  | none => exact le_refl ps
  | some e => exact le_max_left ps (gs e)

theorem taggedAux_map_snd {α : Type} (fetch : String → Int → Int → List α) (gs : α → Int)
    (g : Genome) (rs : List NamedInterval) :
    ∀ st, (fetchRegionsAuxTagged fetch gs g st rs).map Prod.snd = fetchRegionsAux fetch gs g st rs := by
  induction rs with
  | nil => intro st; rfl
  | cons r rest ih =>
    intro st
    rw [fetchRegionsAuxTagged_cons, fetchRegionsAux_cons, List.map_append, ih, List.map_map]
    simp [Function.comp]

theorem prevStart_mono_run {α : Type} (fetch : String → Int → Int → List α) (gs : α → Int)
    (g : Genome) (c : Nat) (rs : List NamedInterval) :
    ∀ st : Option Nat × Int, st.1 = some c → (∀ r ∈ rs, r.chrom_id = c) →
      st.2 ≤ (stateAfter fetch gs g st rs).2 := by
  induction rs with
  | nil => intro st _ _; exact le_refl st.2
  | cons r rest ih =>
    intro st hst hall
    have hr : r.chrom_id = c := hall r (List.mem_cons_self r rest)
    have hsame : st.1 = some r.chrom_id := by rw [hr]; exact hst
    have hstep : dedupStep fetch gs g st r =
        ((fetch (r.chrom_name g) r.start r.end_).filter (fun e => decide (st.2 < gs e)),
          (some r.chrom_id, updPrev gs st.2 (fetch (r.chrom_name g) r.start r.end_))) :=
      dedupStep_same fetch gs g st r hsame
    have h1 : st.2 ≤ (dedupStep fetch gs g st r).2.2 := by
      rw [hstep]; exact updPrev_le gs st.2 _
    have h2 : (dedupStep fetch gs g st r).2.2 ≤ (stateAfter fetch gs g (dedupStep fetch gs g st r).2 rest).2 := by
      refine ih (dedupStep fetch gs g st r).2 ?_ ?_
      · rw [hstep, hr]
      · intro r' hr'; exact hall r' (List.mem_cons_of_mem r hr')
    have : stateAfter fetch gs g st (r :: rest) = stateAfter fetch gs g (dedupStep fetch gs g st r).2 rest := rfl
    rw [this]
    exact le_trans h1 h2

/-- C3: after a region whose fetch returned records, prev_start becomes the
maximum of its current (post chromosome-reset) value and the start of the
last record the fetch returned; a region whose fetch returned nothing leaves
it at that current value; and across consecutive regions of one chromosome
prev_start never decreases. -/
theorem dedup_prev_start_update {α : Type} (fetch : String → Int → Int → List α)
    (gs : α → Int) (g : Genome) (st : Option Nat × Int) (r : NamedInterval) :
    ((fetch (r.chrom_name g) r.start r.end_ = [] →
        (dedupStep fetch gs g st r).2.2 = (if st.1 = some r.chrom_id then st.2 else -1)) ∧
      (∀ e, (fetch (r.chrom_name g) r.start r.end_).getLast? = some e →
        (dedupStep fetch gs g st r).2.2 =
          max (if st.1 = some r.chrom_id then st.2 else -1) (gs e)) ∧
      (st.1 = some r.chrom_id → st.2 ≤ (dedupStep fetch gs g st r).2.2)) ∧
    (∀ (rs : List NamedInterval) (c : Nat), st.1 = some c → (∀ r' ∈ rs, r'.chrom_id = c) →
      st.2 ≤ (stateAfter fetch gs g st rs).2) := by
  refine ⟨⟨?_, ?_, ?_⟩, ?_⟩
  · intro hemp
    simp [dedupStep, updPrev, hemp]
  · intro e hlast
    simp [dedupStep, updPrev, hlast]
  · intro hsame
    rw [dedupStep_same fetch gs g st r hsame]
    exact updPrev_le gs st.2 _
  · intro rs c hst hall
    exact prevStart_mono_run fetch gs g c rs st hst hall

theorem dedup_prev_start_update_witness :
    ((5:Int) ≤ (dedupStep overlapFetch (fun x => x) oneChromGenome (some 0, 5) regionB).2.2) ∧
      ((5:Int) ≤ (stateAfter overlapFetch (fun x => x) oneChromGenome (some 0, 5) [regionA, regionB]).2) :=
  ⟨(dedup_prev_start_update overlapFetch (fun x => x) oneChromGenome (some 0, 5) regionB).1.2.2 rfl,
    (dedup_prev_start_update overlapFetch (fun x => x) oneChromGenome (some 0, 5) regionA).2
      [regionA, regionB] 0 rfl (by decide)⟩

/-- C4: when a region's chromosome differs from the previous one, the cursor
is reset before the region is processed, so every record of the first region
of a new chromosome run is yielded unsuppressed. -/
theorem dedup_chromosome_switch_reset {α : Type} (fetch : String → Int → Int → List α)
    (gs : α → Int) (g : Genome) (st : Option Nat × Int) (r : NamedInterval)
    (rest : List NamedInterval) (h : st.1 ≠ some r.chrom_id) :
    fetchRegionsAux fetch gs g st (r :: rest) =
      fetch (r.chrom_name g) r.start r.end_
        ++ fetchRegionsAux fetch gs g
            (some r.chrom_id, updPrev gs (-1) (fetch (r.chrom_name g) r.start r.end_)) rest := by
  rw [fetchRegionsAux_cons, dedupStep_diff fetch gs g st r h]

theorem dedup_chromosome_switch_reset_witness :
    fetchRegionsAux chromTagFetch Prod.snd twoChromGenome (some 0, 5) [chr2Full] = [("chr2", 5)] := by
  rw [dedup_chromosome_switch_reset chromTagFetch Prod.snd twoChromGenome (some 0, 5) chr2Full []
    (by decide)]
  rfl

/-- C6: with neither an explicit region list nor a region file, fetch_iterator
returns exactly the source's unrestricted no-argument fetch. -/
theorem fetch_iterator_no_region_fast_path {α : Type} (obj : FetchSource α) (gs : α → Int)
    (args : Args) (g : Genome) (nd : Bool) (h1 : args.regions = [])
    (h2 : args.regions_file = none) :
    fetch_iterator obj gs args g nd = Except.ok obj.fetchAll := by
  simp [fetch_iterator, h1, h2]

theorem fetch_iterator_no_region_fast_path_witness :
    fetch_iterator constSource (fun x => x) argsNone oneChromGenome true = Except.ok [5, 6, 7] := by
  rw [fetch_iterator_no_region_fast_path constSource (fun x => x) argsNone oneChromGenome true
    rfl rfl]
  rfl

/-- C9: suppression inside one region compares only against the cursor left
by earlier regions, never against other records of the same fetch: any record
whose start beats the cursor survives with its full multiplicity, a fetch
all of whose records beat the cursor is yielded unchanged, and in the first
region of a chromosome run every fetched record is yielded. -/
theorem dedup_no_within_region_suppression {α : Type} [DecidableEq α]
    (fetch : String → Int → Int → List α) (gs : α → Int) (g : Genome)
    (st : Option Nat × Int) (r : NamedInterval) :
    (st.1 = some r.chrom_id → ∀ e, st.2 < gs e →
        (dedupStep fetch gs g st r).1.count e = (fetch (r.chrom_name g) r.start r.end_).count e) ∧
      ((st.1 = some r.chrom_id → ∀ e ∈ fetch (r.chrom_name g) r.start r.end_, st.2 < gs e) →
        (dedupStep fetch gs g st r).1 = fetch (r.chrom_name g) r.start r.end_) := by
  constructor
  · intro hsame e he
    rw [dedupStep_same fetch gs g st r hsame]
    exact List.count_filter (by simpa using he)
  · intro hall
    by_cases hsame : st.1 = some r.chrom_id
    · rw [dedupStep_same fetch gs g st r hsame]
      refine List.filter_eq_self.mpr ?_
      intro e he
      simpa using hall hsame e he
    · rw [dedupStep_diff fetch gs g st r hsame]

theorem dedup_no_within_region_suppression_witness :
    (dedupStep dupFetch (fun x => x) oneChromGenome (some 0, 3) regionA).1.count 7
      = (dupFetch (regionA.chrom_name oneChromGenome) regionA.start regionA.end_).count 7 :=
  (dedup_no_within_region_suppression dupFetch (fun x => x) oneChromGenome (some 0, 3) regionA).1
    rfl 7 (by decide)

theorem pairwise_of_total {β : Type} (R : β → β → Prop) (h : ∀ a b, R a b) :
    ∀ l : List β, List.Pairwise R l := by
  intro l
  induction l with
  | nil => exact List.Pairwise.nil
  | cons x t ih => exact List.Pairwise.cons (fun b _ => h x b) ih

theorem dedupStep_state_fst {α : Type} (fetch : String → Int → Int → List α) (gs : α → Int)
    (g : Genome) (st : Option Nat × Int) (r : NamedInterval) :
    (dedupStep fetch gs g st r).2.1 = some r.chrom_id := rfl

theorem yields_subset {α : Type} (fetch : String → Int → Int → List α) (gs : α → Int)
    (g : Genome) (st : Option Nat × Int) (r : NamedInterval) (e : α)
    (he : e ∈ (dedupStep fetch gs g st r).1) : e ∈ fetch (r.chrom_name g) r.start r.end_ := by
  by_cases hsame : st.1 = some r.chrom_id
  · rw [dedupStep_same fetch gs g st r hsame] at he
    exact List.mem_of_mem_filter he
  · rw [dedupStep_diff fetch gs g st r hsame] at he
    exact he

theorem yields_pairwise {α : Type} (fetch : String → Int → Int → List α) (gs : α → Int)
    (g : Genome) (st : Option Nat × Int) (r : NamedInterval)
    (hp : List.Pairwise (fun a b => gs a ≤ gs b) (fetch (r.chrom_name g) r.start r.end_)) :
    List.Pairwise (fun a b => gs a ≤ gs b) (dedupStep fetch gs g st r).1 := by
  by_cases hsame : st.1 = some r.chrom_id
  · rw [dedupStep_same fetch gs g st r hsame]
    exact hp.sublist (List.filter_sublist _)
  · rw [dedupStep_diff fetch gs g st r hsame]
    exact hp

theorem le_getLast_of_pairwise {α : Type} (gs : α → Int) :
    ∀ l : List α, List.Pairwise (fun a b => gs a ≤ gs b) l →
      ∀ a ∈ l, ∀ z, l.getLast? = some z → gs a ≤ gs z := by
  intro l
  induction l with
  | nil => intro _ a ha; simp at ha
  | cons x t ih =>
    intro hp a ha z hz
    cases t with
    | nil =>
      simp at ha hz
      rw [ha, hz]
    | cons y t2 =>
      have hz' : (y :: t2).getLast? = some z := by
        simpa [List.getLast?_cons_cons] using hz
      rcases List.mem_cons.mp ha with rfl | ha'
      · have hzm : z ∈ y :: t2 := by
          have := List.getLast?_eq_getLast (y :: t2) (by simp)
          rw [this] at hz'
          have hz2 : (y :: t2).getLast (by simp) = z := by
            exact Option.some.inj hz'
          rw [← hz2]
          exact List.getLast_mem _
        exact (List.pairwise_cons.mp hp).1 z hzm
      · exact ih (List.pairwise_cons.mp hp).2 a ha' z hz'

theorem gs_le_updPrev {α : Type} (gs : α → Int) (ps : Int) (entries : List α) (a : α)
    (ha : a ∈ entries) (hp : List.Pairwise (fun a b => gs a ≤ gs b) entries) :
    gs a ≤ updPrev gs ps entries := by
  unfold updPrev
  cases hl : entries.getLast? with
  | none =>
    rw [List.getLast?_eq_none_iff] at hl
    rw [hl] at ha
    simp at ha
  | some z =>
    exact le_trans (le_getLast_of_pairwise gs entries hp a ha z hl) (le_max_right ps (gs z))

theorem tagged_tag_mem {α : Type} (fetch : String → Int → Int → List α) (gs : α → Int)
    (g : Genome) :
    ∀ (rs : List NamedInterval) (st : Option Nat × Int) (p : Nat × α),
      p ∈ fetchRegionsAuxTagged fetch gs g st rs → p.1 ∈ rs.map (fun r => r.chrom_id) := by
  intro rs
  induction rs with
  | nil => intro st p hp; simp [fetchRegionsAuxTagged] at hp
  | cons r rest ih =>
    intro st p hp
    rw [fetchRegionsAuxTagged_cons] at hp
    rw [List.map_cons]
    rcases List.mem_append.mp hp with h1 | h2
    · rcases List.mem_map.mp h1 with ⟨e, _, rfl⟩
      exact List.mem_cons_self _ _
    · exact List.mem_cons_of_mem _ (ih (dedupStep fetch gs g st r).2 p h2)

theorem tagged_gt_prev {α : Type} (fetch : String → Int → Int → List α) (gs : α → Int)
    (g : Genome) :
    ∀ (rs : List NamedInterval) (st : Option Nat × Int) (c : Nat),
      List.Pairwise (· ≤ ·) (rs.map (fun r => r.chrom_id)) →
      (∀ r ∈ rs, c ≤ r.chrom_id) →
      st.1 = some c →
      ∀ p ∈ fetchRegionsAuxTagged fetch gs g st rs, p.1 = c → st.2 < gs p.2 := by
  intro rs
  induction rs with
  | nil => intro st c _ _ _ p hp; simp [fetchRegionsAuxTagged] at hp
  | cons r rest ih =>
    intro st c hpair hc hst p hp hpc
    rw [List.map_cons, List.pairwise_cons] at hpair
    rw [fetchRegionsAuxTagged_cons] at hp
    rcases List.mem_append.mp hp with h1 | h2
    · rcases List.mem_map.mp h1 with ⟨e, he, rfl⟩
      simp only at hpc
      have hsame : st.1 = some r.chrom_id := by rw [hpc]; exact hst
      rw [dedupStep_same fetch gs g st r hsame] at he
      have := List.of_mem_filter he
      simpa using this
    · by_cases hrc : r.chrom_id = c
      · have hsame : st.1 = some r.chrom_id := by rw [hrc]; exact hst
        have hst' : (dedupStep fetch gs g st r).2.1 = some c := by
          rw [dedupStep_state_fst, hrc]
        have hps : st.2 ≤ (dedupStep fetch gs g st r).2.2 := by
          rw [dedupStep_same fetch gs g st r hsame]
          exact updPrev_le gs st.2 _
        have hcrest : ∀ r' ∈ rest, c ≤ r'.chrom_id := by
          intro r' hr'
          have := hpair.1 r'.chrom_id (List.mem_map.mpr ⟨r', hr', rfl⟩)
          omega
        have hrec := ih (dedupStep fetch gs g st r).2 c hpair.2 hcrest hst' p h2 hpc
        exact lt_of_le_of_lt hps hrec
      · exfalso
        have hlt : c < r.chrom_id := lt_of_le_of_ne (hc r (List.mem_cons_self r rest))
          (fun h => hrc h.symm)
        have hmem := tagged_tag_mem fetch gs g rest (dedupStep fetch gs g st r).2 p h2
        have := hpair.1 p.1 hmem
        omega

theorem chromStarts_append {α : Type} (gs : α → Int) (c : Nat) (l1 l2 : List (Nat × α)) :
    chromStarts gs c (l1 ++ l2) = chromStarts gs c l1 ++ chromStarts gs c l2 := by
  simp [chromStarts, List.filter_append]

theorem chromStarts_map_self {α : Type} (gs : α → Int) (c : Nat) (l : List α) :
    chromStarts gs c (l.map (fun e => (c, e))) = l.map gs := by
  unfold chromStarts
  rw [List.filter_map, List.map_map]
  simp only [Function.comp_def]
  simp

theorem chromStarts_map_ne {α : Type} (gs : α → Int) (c d : Nat) (hcd : d ≠ c) (l : List α) :
    chromStarts gs c (l.map (fun e => (d, e))) = [] := by
  unfold chromStarts
  rw [List.filter_map]
  simp only [Function.comp_def]
  simp [hcd]

theorem mem_chromStarts {α : Type} (gs : α → Int) (c : Nat) (l : List (Nat × α)) (x : Int)
    (hx : x ∈ chromStarts gs c l) : ∃ p, p ∈ l ∧ p.1 = c ∧ gs p.2 = x := by
  unfold chromStarts at hx
  rcases List.mem_map.mp hx with ⟨p, hp, rfl⟩
  refine ⟨p, List.mem_of_mem_filter hp, ?_, rfl⟩
  have := List.of_mem_filter hp
  simpa using this

theorem tagged_tags_pairwise {α : Type} (fetch : String → Int → Int → List α) (gs : α → Int)
    (g : Genome) :
    ∀ (rs : List NamedInterval) (st : Option Nat × Int),
      List.Pairwise (· ≤ ·) (rs.map (fun r => r.chrom_id)) →
      List.Pairwise (· ≤ ·) ((fetchRegionsAuxTagged fetch gs g st rs).map Prod.fst) := by
  intro rs
  induction rs with
  | nil => intro st _; simp [fetchRegionsAuxTagged]
  | cons r rest ih =>
    intro st hpair
    rw [List.map_cons, List.pairwise_cons] at hpair
    rw [fetchRegionsAuxTagged_cons, List.map_append, List.pairwise_append]
    refine ⟨?_, ih (dedupStep fetch gs g st r).2 hpair.2, ?_⟩
    · rw [List.map_map]
      refine (List.pairwise_map).mpr ?_
      exact pairwise_of_total _ (fun a b => le_refl r.chrom_id) _
    · intro a ha b hb
      rw [List.map_map] at ha
      rcases List.mem_map.mp ha with ⟨e, _, rfl⟩
      rcases List.mem_map.mp hb with ⟨p, hp, rfl⟩
      have hmem := tagged_tag_mem fetch gs g rest (dedupStep fetch gs g st r).2 p hp
      exact hpair.1 p.1 hmem

theorem tagged_chromStarts_pairwise {α : Type} (fetch : String → Int → Int → List α)
    (gs : α → Int) (g : Genome)
    (hf : ∀ cn s e, List.Pairwise (fun a b => gs a ≤ gs b) (fetch cn s e)) :
    ∀ (rs : List NamedInterval) (st : Option Nat × Int) (c : Nat),
      List.Pairwise (· ≤ ·) (rs.map (fun r => r.chrom_id)) →
      (∀ c₀, st.1 = some c₀ → ∀ r ∈ rs, c₀ ≤ r.chrom_id) →
      List.Pairwise (· ≤ ·) (chromStarts gs c (fetchRegionsAuxTagged fetch gs g st rs)) := by
  intro rs
  induction rs with
  | nil => intro st c _ _; simp [fetchRegionsAuxTagged, chromStarts]
  | cons r rest ih =>
    intro st c hpair hst
    rw [List.map_cons, List.pairwise_cons] at hpair
    rw [fetchRegionsAuxTagged_cons, chromStarts_append, List.pairwise_append]
    have hst' : ∀ c₀, (dedupStep fetch gs g st r).2.1 = some c₀ →
        ∀ r' ∈ rest, c₀ ≤ r'.chrom_id := by
      intro c₀ h r' hr'
      rw [dedupStep_state_fst] at h
      have hc₀ : c₀ = r.chrom_id := (Option.some.inj h).symm
      have := hpair.1 r'.chrom_id (List.mem_map.mpr ⟨r', hr', rfl⟩)
      omega
    refine ⟨?_, ih (dedupStep fetch gs g st r).2 c hpair.2 hst', ?_⟩
    · by_cases hc : r.chrom_id = c
      · subst hc
        rw [chromStarts_map_self]
        exact List.Pairwise.map gs (fun a b h => h) (yields_pairwise fetch gs g st r (hf _ _ _))
      · rw [chromStarts_map_ne gs c r.chrom_id hc]
        exact List.Pairwise.nil
    · intro x hx y hy
      by_cases hc : r.chrom_id = c
      · subst hc
        rw [chromStarts_map_self] at hx
        rcases List.mem_map.mp hx with ⟨a, ha, rfl⟩
        have haent : a ∈ fetch (r.chrom_name g) r.start r.end_ :=
          yields_subset fetch gs g st r a ha
        rcases mem_chromStarts gs r.chrom_id _ y hy with ⟨p, hp, hpc, hgy⟩
        have hyrec := tagged_gt_prev fetch gs g rest (dedupStep fetch gs g st r).2 r.chrom_id
          hpair.2 (fun r' hr' => hpair.1 r'.chrom_id (List.mem_map.mpr ⟨r', hr', rfl⟩))
          (dedupStep_state_fst fetch gs g st r) p hp hpc
        have hle : gs a ≤ (dedupStep fetch gs g st r).2.2 := by
          have h2 : (dedupStep fetch gs g st r).2.2 =
              updPrev gs (if st.1 = some r.chrom_id then st.2 else -1)
                (fetch (r.chrom_name g) r.start r.end_) := rfl
          rw [h2]
          exact gs_le_updPrev gs _ _ a haent (hf _ _ _)
        rw [← hgy]
        exact le_of_lt (lt_of_le_of_lt hle hyrec)
      · rw [chromStarts_map_ne gs c r.chrom_id hc] at hx
        simp at hx

/-- C2: for a region list sorted by (chrom_id, start, end) and pairwise non
overlapping, and a source whose range queries each return non decreasing
start positions, the deduplicating iterator's output (tagged by the region
chromosome, and projecting back to the plain output) has chromosome ids in
non decreasing region order and non decreasing starts within every
chromosome. -/
theorem dedup_ordering_invariant {α : Type} (fetch : String → Int → Int → List α)
    (gs : α → Int) (g : Genome) (regions : List NamedInterval)
    (hf : ∀ cn s e, List.Pairwise (fun a b => gs a ≤ gs b) (fetch cn s e))
    (hsorted : List.Pairwise NamedInterval.le regions)
    (hdisj : List.Pairwise NamedInterval.disjoint regions) :
    ((fetchRegionsAuxTagged fetch gs g (none, -1) regions).map Prod.snd
        = fetch_regions_wo_duplicates fetch gs g regions) ∧
      List.Pairwise (· ≤ ·)
        ((fetchRegionsAuxTagged fetch gs g (none, -1) regions).map Prod.fst) ∧
      ∀ c, List.Pairwise (· ≤ ·)
        (chromStarts gs c (fetchRegionsAuxTagged fetch gs g (none, -1) regions)) := by
  have hchrom : List.Pairwise (· ≤ ·) (regions.map (fun r => r.chrom_id)) :=
    List.Pairwise.map _ (fun a b h => by unfold NamedInterval.le at h; omega) hsorted
  refine ⟨taggedAux_map_snd fetch gs g regions (none, -1), ?_, ?_⟩
  · exact tagged_tags_pairwise fetch gs g regions (none, -1) hchrom
  · intro c
    refine tagged_chromStarts_pairwise fetch gs g hf regions (none, -1) c hchrom ?_
    intro c₀ h
    exact absurd h (by simp)

theorem dedup_ordering_invariant_witness :
    List.Pairwise NamedInterval.le [chr1Full, regionTail] ∧
      List.Pairwise NamedInterval.disjoint [chr1Full, regionTail] ∧
      List.Pairwise (· ≤ ·)
        ((fetchRegionsAuxTagged emptyRegionFetch (fun x => x) oneChromGenome (none, -1)
            [chr1Full, regionTail]).map Prod.fst) ∧
      List.Pairwise (· ≤ ·)
        (chromStarts (fun x => x) 0
          (fetchRegionsAuxTagged emptyRegionFetch (fun x => x) oneChromGenome (none, -1)
            [chr1Full, regionTail])) := by
  have hf : ∀ cn s e, List.Pairwise (fun a b : Int => (fun x : Int => x) a ≤ (fun x : Int => x) b)
      (emptyRegionFetch cn s e) := by
    intro cn s e
    unfold emptyRegionFetch
    split
    · exact List.Pairwise.nil
    split
    · decide
    split
    · decide
    · exact List.Pairwise.nil
  have h := dedup_ordering_invariant emptyRegionFetch (fun x => x) oneChromGenome
    [chr1Full, regionTail] hf (by decide) (by decide)
  exact ⟨by decide, by decide, h.2.1, h.2.2 0⟩

theorem NamedInterval.le_chrom {a b : NamedInterval} (h : NamedInterval.le a b) :
    a.chrom_id ≤ b.chrom_id := by
  unfold NamedInterval.le at h
  omega

theorem dedupStep_empty_entries {α : Type} (fetch : String → Int → Int → List α) (gs : α → Int)
    (g : Genome) (st : Option Nat × Int) (E : NamedInterval)
    (hent : fetch (E.chrom_name g) E.start E.end_ = []) :
    dedupStep fetch gs g st E =
      ([], (some E.chrom_id, if st.1 = some E.chrom_id then st.2 else -1)) := by
  by_cases hsame : st.1 = some E.chrom_id
  · rw [dedupStep_same fetch gs g st E hsame, hent, if_pos hsame]
    simp [updPrev]
  · rw [dedupStep_diff fetch gs g st E hsame, hent, if_neg hsame]
    simp [updPrev]

theorem dedupStep_reset_eq {α : Type} (fetch : String → Int → Int → List α) (gs : α → Int)
    (g : Genome) (r : NamedInterval)
    (hnn : ∀ a ∈ fetch (r.chrom_name g) r.start r.end_, 0 ≤ gs a) :
    dedupStep fetch gs g (some r.chrom_id, -1) r =
      (fetch (r.chrom_name g) r.start r.end_,
        (some r.chrom_id, updPrev gs (-1) (fetch (r.chrom_name g) r.start r.end_))) := by
  rw [dedupStep_same fetch gs g (some r.chrom_id, -1) r rfl]
  congr 1
  refine List.filter_eq_self.mpr ?_
  intro e he
  have h0 := hnn e he
  simp only [decide_eq_true_eq]
  omega

theorem empty_region_skip_base {α : Type} (fetch : String → Int → Int → List α) (gs : α → Int)
    (g : Genome) (E : NamedInterval) (hE : E.start = E.end_)
    (hemp : ∀ cn s, fetch cn s s = [])
    (hnn : ∀ cn s e, ∀ a ∈ fetch cn s e, 0 ≤ gs a) :
    ∀ (post : List NamedInterval) (st : Option Nat × Int),
      (∀ r ∈ post, E.chrom_id ≤ r.chrom_id) →
      (∀ c₀, st.1 = some c₀ → c₀ = E.chrom_id ∨ ∀ r ∈ post, c₀ < r.chrom_id) →
      fetchRegionsAux fetch gs g st (E :: post) = fetchRegionsAux fetch gs g st post := by
  have hent : fetch (E.chrom_name g) E.start E.end_ = [] := by
    rw [← hE]
    exact hemp (E.chrom_name g) E.start
  intro post st hpost hst
  rw [fetchRegionsAux_cons, dedupStep_empty_entries fetch gs g st E hent]
  simp only [List.nil_append]
  cases post with
  | nil => rfl
  | cons r rest =>
    rw [fetchRegionsAux_cons, fetchRegionsAux_cons]
    suffices hdd : dedupStep fetch gs g
        (some E.chrom_id, if st.1 = some E.chrom_id then st.2 else -1) r
        = dedupStep fetch gs g st r by rw [hdd]
    by_cases hsame : st.1 = some E.chrom_id
    · rw [if_pos hsame]
      obtain ⟨st1, st2⟩ := st
      simp only at hsame
      rw [hsame]
    · rw [if_neg hsame]
      have hnnr : ∀ a ∈ fetch (r.chrom_name g) r.start r.end_, 0 ≤ gs a :=
        fun a ha => hnn (r.chrom_name g) r.start r.end_ a ha
      have hstne : st.1 ≠ some r.chrom_id := by
        obtain ⟨st1, st2⟩ := st
        cases st1 with
        | none => simp
        | some c₀ =>
          rcases hst c₀ rfl with hceq | hclt
          · exact absurd (by simp [hceq]) hsame
          · have := hclt r (List.mem_cons_self r rest)
            simp only [ne_eq, Option.some.injEq]
            omega
      rw [dedupStep_diff fetch gs g st r hstne]
      by_cases hrE : r.chrom_id = E.chrom_id
      · rw [← hrE]
        exact dedupStep_reset_eq fetch gs g r hnnr
      · have : (some E.chrom_id, (-1 : Int)).1 ≠ some r.chrom_id := by
          simp only [ne_eq, Option.some.injEq]
          exact fun h => hrE h.symm
        rw [dedupStep_diff fetch gs g (some E.chrom_id, -1) r this]

theorem empty_region_skip_aux {α : Type} (fetch : String → Int → Int → List α) (gs : α → Int)
    (g : Genome) (E : NamedInterval) (post : List NamedInterval) (hE : E.start = E.end_)
    (hemp : ∀ cn s, fetch cn s s = [])
    (hnn : ∀ cn s e, ∀ a ∈ fetch cn s e, 0 ≤ gs a) :
    ∀ (pre : List NamedInterval) (st : Option Nat × Int),
      List.Pairwise NamedInterval.le (pre ++ E :: post) →
      (∀ c₀, st.1 = some c₀ → c₀ ≤ E.chrom_id) →
      fetchRegionsAux fetch gs g st (pre ++ E :: post) = fetchRegionsAux fetch gs g st (pre ++ post) := by
  intro pre
  induction pre with
  | nil =>
    intro st hpair hst
    simp only [List.nil_append] at *
    rw [List.pairwise_cons] at hpair
    have hpost : ∀ r ∈ post, E.chrom_id ≤ r.chrom_id :=
      fun r hr => NamedInterval.le_chrom (hpair.1 r hr)
    refine empty_region_skip_base fetch gs g E hE hemp hnn post st hpost ?_
    intro c₀ hc₀
    rcases eq_or_ne c₀ E.chrom_id with h | h
    · exact Or.inl h
    · refine Or.inr ?_
      intro r hr
      have h1 := hst c₀ hc₀
      have h2 := hpost r hr
      omega
  | cons p pre' ih =>
    intro st hpair hst
    simp only [List.cons_append] at hpair ⊢
    rw [List.pairwise_cons] at hpair
    rw [fetchRegionsAux_cons, fetchRegionsAux_cons]
    congr 1
    refine ih (dedupStep fetch gs g st p).2 hpair.2 ?_
    intro c₀ hc₀
    rw [dedupStep_state_fst] at hc₀
    have hpE : NamedInterval.le p E :=
      hpair.1 E (List.mem_append.mpr (Or.inr (List.mem_cons_self E post)))
    have := NamedInterval.le_chrom hpE
    have hc : c₀ = p.chrom_id := (Option.some.inj hc₀).symm
    omega

/-- C5: an empty region (start = end) inserted anywhere into a sorted region
sequence yields zero records (the source returns nothing for an empty range)
and carries the cursor forward without effect: the full output equals the
output with the empty region omitted.  Record starts are non negative, as
genomic coordinates are. -/
theorem dedup_empty_region_noop {α : Type} (fetch : String → Int → Int → List α)
    (gs : α → Int) (g : Genome) (pre post : List NamedInterval) (E : NamedInterval)
    (hE : E.start = E.end_)
    (hemp : ∀ cn s, fetch cn s s = [])
    (hnn : ∀ cn s e, ∀ a ∈ fetch cn s e, 0 ≤ gs a)
    (hsorted : List.Pairwise NamedInterval.le (pre ++ E :: post)) :
    (∀ st, fetchRegionsAux fetch gs g st [E] = []) ∧
      fetch_regions_wo_duplicates fetch gs g (pre ++ E :: post)
        = fetch_regions_wo_duplicates fetch gs g (pre ++ post) := by
  have hent : fetch (E.chrom_name g) E.start E.end_ = [] := by
    rw [← hE]
    exact hemp (E.chrom_name g) E.start
  constructor
  · intro st
    rw [fetchRegionsAux_cons, dedupStep_empty_entries fetch gs g st E hent]
    rfl
  · unfold fetch_regions_wo_duplicates
    refine empty_region_skip_aux fetch gs g E post hE hemp hnn pre (none, -1) hsorted ?_
    intro c₀ h
    exact absurd h (by simp)

theorem dedup_empty_region_noop_witness :
    fetch_regions_wo_duplicates emptyRegionFetch (fun x => x) oneChromGenome
        [chr1Full, regionEmpty, regionTail]
      = fetch_regions_wo_duplicates emptyRegionFetch (fun x => x) oneChromGenome
        [chr1Full, regionTail] := by
  have hemp : ∀ cn s, emptyRegionFetch cn s s = [] := by
    intro cn s
    unfold emptyRegionFetch
    simp
  have hnn : ∀ cn s e, ∀ a ∈ emptyRegionFetch cn s e, (0 : Int) ≤ a := by
    intro cn s e a ha
    unfold emptyRegionFetch at ha
    split at ha
    · simp at ha
    split at ha
    · simp at ha
      omega
    split at ha
    · simp at ha
      omega
    · simp at ha
  exact (dedup_empty_region_noop emptyRegionFetch (fun x => x) oneChromGenome
    [chr1Full] [regionTail] regionEmpty rfl hemp hnn (by decide)).2

theorem fullChromIntervals_chrom_ids (g : Genome) :
    (fullChromIntervals g).map (fun r => r.chrom_id) = List.range g.chrom_lengths.length := by
  unfold fullChromIntervals
  rw [List.map_map]
  exact List.enum_map_fst g.chrom_lengths

theorem fullChromIntervals_sorted (g : Genome) :
    List.Pairwise NamedInterval.le (fullChromIntervals g) := by
  have h0 : List.Pairwise (· < ·) ((fullChromIntervals g).map (fun r => r.chrom_id)) := by
    rw [fullChromIntervals_chrom_ids]
    exact List.pairwise_lt_range _
  have h1 := List.pairwise_map.mp h0
  exact h1.imp (fun h => Or.inl h)

/-- C7: exactly one selection path is taken by get_regions: a non empty
explicit region list makes the region file irrelevant (the result does not
depend on it at all), a file alone is handled by the file branch, and with
neither selection the result is one full chromosome interval per chromosome
in genome enumeration order (already sorted, so sorting returns it
unchanged). -/
theorem get_regions_selection_paths (g : Genome) (srt : Bool) :
    (∀ (rs : List String) (f₁ f₂ : Option (List String)), rs ≠ [] →
        get_regions ⟨rs, f₁⟩ g srt = get_regions ⟨rs, f₂⟩ g srt) ∧
      (∀ lines, get_regions ⟨[], some lines⟩ g srt =
        (intervalsFromFileLines g lines).map
          (fun l => if srt then l.insertionSort NamedInterval.le else l)) ∧
      (get_regions ⟨[], none⟩ g srt = Except.ok (fullChromIntervals g) ∧
        (fullChromIntervals g).map (fun r => r.chrom_id)
          = List.range g.chrom_lengths.length) := by
  refine ⟨?_, ?_, ?_, ?_⟩
  · intro rs f₁ f₂ hrs
    unfold get_regions collectIntervals
    rw [if_neg hrs, if_neg hrs]
  · intro lines
    rfl
  · have h0 : get_regions ⟨[], none⟩ g srt =
        Except.ok (if srt then (fullChromIntervals g).insertionSort NamedInterval.le
          else fullChromIntervals g) := rfl
    rw [h0]
    cases srt with
    | false => rfl
    | true =>
      rw [if_pos rfl]
      rw [List.Sorted.insertionSort_eq (fullChromIntervals_sorted g)]
  · exact fullChromIntervals_chrom_ids g

theorem get_regions_selection_paths_witness :
    get_regions argsExplicit oneChromGenome true
        = get_regions argsExplicitPlusFile oneChromGenome true ∧
      get_regions argsNone oneChromGenome true = Except.ok (fullChromIntervals oneChromGenome) :=
  ⟨(get_regions_selection_paths oneChromGenome true).1 ["chr1"] none (some ["garbage line"])
      (by decide),
    (get_regions_selection_paths oneChromGenome true).2.2.1⟩

/-- C8 counterexample: a blank line in a region file is not skipped: with a
one chromosome genome, a region file consisting of one blank line aborts the
whole build with an unknown chromosome error (the blank line is stripped,
split, and its empty first field is looked up as a chromosome name) instead
of being ignored. -/
theorem region_file_blank_line_aborts :
    get_regions argsFileBlank oneChromGenome true = Except.error "unknown chromosome" := rfl

/-- C8 amended: lines beginning with a hash are skipped without producing an
interval and without error; a well formed line prepends its parsed trimmed
interval; a malformed non comment line anywhere aborts the whole build with
an error and no partial region set; and a file branch error propagates
through get_regions.  Blank lines are not skipped: they are parsed like any
other line (see the counterexample). -/
theorem region_file_parsing (g : Genome) :
    (∀ line lines, startsWithHash line = true →
        intervalsFromFileLines g (line :: lines) = intervalsFromFileLines g lines) ∧
      (∀ line lines iv, startsWithHash line = false → parseFileLine g line = Except.ok iv →
        intervalsFromFileLines g (line :: lines)
          = (intervalsFromFileLines g lines).map (fun ivs => iv :: ivs)) ∧
      (∀ (pre : List String) line rest e, startsWithHash line = false →
        parseFileLine g line = Except.error e →
        ∃ e2, intervalsFromFileLines g (pre ++ line :: rest) = Except.error e2) ∧
      (∀ lines e, intervalsFromFileLines g lines = Except.error e →
        ∀ srt, get_regions ⟨[], some lines⟩ g srt = Except.error e) := by
  have hcons : ∀ (line : String) (rest : List String),
      intervalsFromFileLines g (line :: rest) =
        if startsWithHash line then intervalsFromFileLines g rest
        else Except.bind (parseFileLine g line) (fun iv =>
          Except.bind (intervalsFromFileLines g rest) (fun ivs => Except.ok (iv :: ivs))) :=
    fun _ _ => rfl
  refine ⟨?_, ?_, ?_, ?_⟩
  · intro line lines h
    rw [hcons, if_pos h]
  · intro line lines iv h1 h2
    rw [hcons, if_neg (by simp [h1]), h2]
    cases hres : intervalsFromFileLines g lines with
    | ok ivs => rfl
    | error e => rfl
  · intro pre
    induction pre with
    | nil =>
      intro line rest e h1 h2
      refine ⟨e, ?_⟩
      simp only [List.nil_append]
      rw [hcons, if_neg (by simp [h1]), h2]
      rfl
    | cons l pre' ih =>
      intro line rest e h1 h2
      simp only [List.cons_append]
      rw [hcons]
      by_cases hl : startsWithHash l = true
      · rw [if_pos hl]
        exact ih line rest e h1 h2
      · rw [if_neg hl]
        cases hp : parseFileLine g l with
        | error e1 =>
          exact ⟨e1, rfl⟩
        | ok iv =>
          rcases ih line rest e h1 h2 with ⟨e2, he2⟩
          refine ⟨e2, ?_⟩
          rw [he2]
          rfl
  · intro lines e he srt
    have h0 : get_regions ⟨[], some lines⟩ g srt
        = (intervalsFromFileLines g lines).map
            (fun l => if srt then l.insertionSort NamedInterval.le else l) := rfl
    rw [h0, he]
    rfl

theorem region_file_parsing_witness :
    intervalsFromFileLines oneChromGenome ["#comment", "chr1\t10\t20"]
        = intervalsFromFileLines oneChromGenome ["chr1\t10\t20"] ∧
      (∃ e2, intervalsFromFileLines oneChromGenome (["chr1\t10\t20"] ++ "chr1\tx\t20" :: [])
        = Except.error e2) ∧
      get_regions ⟨[], some [""]⟩ oneChromGenome true = Except.error "unknown chromosome" := by
  refine ⟨?_, ?_, ?_⟩
  · exact (region_file_parsing oneChromGenome).1 "#comment" ["chr1\t10\t20"] (by rfl)
  · exact (region_file_parsing oneChromGenome).2.2.1 ["chr1\t10\t20"] "chr1\tx\t20" []
      "invalid literal for int" (by rfl) (by rfl)
  · exact (region_file_parsing oneChromGenome).2.2.2 [""] "unknown chromosome" (by rfl) true

theorem get_regions_sorted_of_ok (args : Args) (g : Genome) (l : List NamedInterval)
    (h : get_regions args g true = Except.ok l) : List.Pairwise NamedInterval.le l := by
  unfold get_regions at h
  cases hc : collectIntervals args g with
  | error e =>
    rw [hc] at h
    exact absurd h (by simp [Except.map])
  | ok ivs =>
    rw [hc] at h
    simp only [Except.map] at h
    have h2 : ivs.insertionSort NamedInterval.le = l := by simpa using h
    rw [← h2]
    exact List.sorted_insertionSort NamedInterval.le ivs

/-- C10: fetch_iterator builds its region set with sorting enabled before any
fetching: outside the no-region fast path it consumes exactly
get_regions(args, genome, sort=true) in both the dedup path and the plain
concatenation path, and every region list that call can return is sorted by
(chrom_id, start, end) regardless of the caller's input order. -/
theorem fetch_iterator_sorted_regions {α : Type} (obj : FetchSource α) (gs : α → Int)
    (args : Args) (g : Genome) (nd : Bool) :
    (∀ l, get_regions args g true = Except.ok l → List.Pairwise NamedInterval.le l) ∧
      (¬(args.regions = [] ∧ args.regions_file = none) →
        fetch_iterator obj gs args g nd =
          (get_regions args g true).map (fun regions =>
            if nd then fetch_regions_wo_duplicates obj.fetch gs g regions
            else (regions.map (fun r => obj.fetch (r.chrom_name g) r.start r.end_)).flatten)) := by
  refine ⟨fun l h => get_regions_sorted_of_ok args g l h, ?_⟩
  intro h
  unfold fetch_iterator
  rw [if_neg h]

theorem fetch_iterator_sorted_regions_witness :
    List.Pairwise NamedInterval.le [(⟨0, 0, 1000, none⟩ : NamedInterval)] ∧
      fetch_iterator constSource (fun x => x) argsExplicit oneChromGenome true
        = Except.ok (fetch_regions_wo_duplicates constSource.fetch (fun x => x) oneChromGenome
            [⟨0, 0, 1000, none⟩]) := by
  constructor
  · exact (fetch_iterator_sorted_regions constSource (fun x => x) argsExplicit oneChromGenome
      true).1 [⟨0, 0, 1000, none⟩] (by rfl)
  · rw [(fetch_iterator_sorted_regions constSource (fun x => x) argsExplicit oneChromGenome
      true).2 (by decide)]
    rfl
